import Mathlib

/-!
Verification of the structured-content reconstruction core of the
Grokipedia scraper (`src/main.py`).  The pure extraction logic of
`GrokipediaSeleniumScraper._scrape_article_page` and of
`format_content_with_sections` is embedded shallowly: the DOM is
materialized as an ordered list of raw elements (tag + text), the
outbound links as a list of href strings, and the container text as a
string.  Every definition mirrors the Python source.  Python string
primitives (`strip`, `split`, `startswith`, `join`, membership) are
modelled by structurally recursive functions on the character list of
the string, so that all definitions evaluate inside the kernel.
-/

namespace Grokipedia

/-- Model of Python `str.strip()`: remove leading and trailing
whitespace characters. -/
def pyStrip (s : String) : String :=
  ⟨((s.data.dropWhile Char.isWhitespace).reverse.dropWhile Char.isWhitespace).reverse⟩

/-- Model of Python `str.startswith(pre)`. -/
def pyStartsWith (s pre : String) : Bool :=
  pre.data.isPrefixOf s.data

/-- Whether `sub` occurs as a contiguous run inside the second list. -/
def isSubChars (sub : List Char) : List Char → Bool
  | [] => sub.isEmpty
  | c :: rest => sub.isPrefixOf (c :: rest) || isSubChars sub rest

/-- Model of Python `sub in s` (substring containment). -/
def pyContains (s sub : String) : Bool :=
  isSubChars sub.data s.data

/-- Model of Python `sep.join(parts)`. -/
def pyJoin (sep : String) : List String → String
  | [] => ""
  | [x] => x
  | x :: y :: rest => x ++ sep ++ pyJoin sep (y :: rest)

/-- Splitting a character list at newline characters, keeping empty
pieces: the model of Python `s.split(chr(10))`. -/
def splitNlChars : List Char → List (List Char)
  | [] => [[]]
  | c :: rest =>
    if c = '\n' then [] :: splitNlChars rest
    else
      match splitNlChars rest with
      | [] => [[c]]
      | piece :: pieces => (c :: piece) :: pieces

/-- Model of Python `s.split(chr(10))`: the list of newline-separated
pieces of `s`, empty pieces kept. -/
def pySplitNl (s : String) : List String :=
  (splitNlChars s.data).map (fun cs => ⟨cs⟩)

/-- Number of maximal whitespace-free runs of a character list; the
flag records whether the previous character was inside a word. -/
def countTokensAux : Bool → List Char → Nat
  | _, [] => 0
  | inWord, c :: rest =>
    if c.isWhitespace then countTokensAux false rest
    else (if inWord then 0 else 1) + countTokensAux true rest

/-- Model of Python `len(s.split())`: the number of whitespace-delimited
tokens of `s`. -/
def pyWordCount (s : String) : Nat :=
  countTokensAux false s.data

/-- DOM tag of a queried element: the CSS query `h1, h2, h3, h4, h5, h6, p`
only ever yields heading tags (with their rank digit) or `p` tags. -/
inductive Tag where
  | h (level : Nat)
  | p
deriving DecidableEq

/-- A raw element handed to the first pass: its tag and its selenium
`element.text`, in document order. -/
structure RawElem where
  tag : Tag
  text : String
deriving DecidableEq

/-- Entry of `elements_data` after the first pass (main.py lines
274-302): either a heading with text and level, or a paragraph. -/
inductive CElem where
  | heading (text : String) (level : Nat)
  | paragraph (text : String)
deriving DecidableEq

/-- A realized section, as stored in `structured_content`
(main.py lines 308-309 and 333-334). -/
structure Section where
  title : String
  level : Nat
  content : List String
deriving DecidableEq

/-- The mutable `current_section` dict (main.py lines 265-269):
`title` is `None` or a string, plus a level and the accumulated
paragraph texts. -/
structure CurSection where
  title : Option String
  level : Nat
  content : List String
deriving DecidableEq

/-- Initial `current_section`: `{'title': None, 'level': 0, 'content': []}`. -/
def initCur : CurSection := ⟨none, 0, []⟩

/-- First pass (main.py lines 276-302): skip an element whose stripped
text is empty or shorter than 3 characters; a heading keeps its stripped
text and level; a `p` element is kept only when its stripped text is
longer than 20 characters. -/
def classify : List RawElem → List CElem
  | [] => []
  | e :: rest =>
    let t := pyStrip e.text
    if t.length < 3 then classify rest
    else
      match e.tag with
      | Tag.h lvl => CElem.heading t lvl :: classify rest
      | Tag.p => if t.length > 20 then CElem.paragraph t :: classify rest else classify rest

/-- The inner `while` loop of the second pass (main.py lines 326-330):
texts of the consecutive paragraph entries at the front of the remaining
element list, stopping at the first heading or the end. -/
def takeParas : List CElem → List String
  | CElem.paragraph t :: rest => t :: takeParas rest
  | _ => []

/-- Sealing (main.py lines 308-309 and 333-334): the current section is
appended to `structured_content` only when its title is truthy (not
`None`, not empty) and its content list is non-empty. -/
def sealList : CurSection → List Section
  | ⟨none, _, _⟩ => []
  | ⟨some t, lvl, content⟩ =>
    if t ≠ "" ∧ content ≠ [] then [⟨t, lvl, content⟩] else []

/-- Second pass (main.py lines 305-339): walk `elements_data` keeping a
current section; on a heading, seal the previous current section (when
sealable) and start a new one whose content is the run of immediately
following paragraphs; paragraph entries are no-ops for the walk itself
(they were already collected by the inner loop); at the end the final
current section is sealed when sealable. -/
def group2 : List CElem → CurSection → List Section
  | [], cur => sealList cur
  | CElem.heading t l :: rest, cur =>
      sealList cur ++ group2 rest ⟨some t, l, takeParas rest⟩
  | CElem.paragraph _ :: rest, cur => group2 rest cur

/-- Direct characterization of the grouping result: one section per
heading that is immediately followed by at least one paragraph, carrying
that heading's text and level and exactly the run of immediately
following paragraphs, in input order. -/
def sectionsOfRuns : List CElem → List Section
  | [] => []
  | CElem.heading t l :: rest =>
      if takeParas rest = [] then sectionsOfRuns rest
      else ⟨t, l, takeParas rest⟩ :: sectionsOfRuns rest
  | CElem.paragraph _ :: rest => sectionsOfRuns rest

theorem sealList_initCur : sealList initCur = [] := rfl

/-- In `group2`, the pending current section is always flushed in front
of the rest of the output. -/
theorem group2_seal_shift (els : List CElem) :
    ∀ cur : CurSection, group2 els cur = sealList cur ++ group2 els initCur := by
  induction els with
  | nil => intro cur; simp [group2, sealList_initCur]
  | cons e rest ih =>
    intro cur
    cases e with
    | heading t l => simp only [group2, sealList_initCur, List.nil_append]
    | paragraph t =>
      simp only [group2]
      rw [ih cur]

/-- Every heading text that survives the first pass has stripped length
at least 3, hence is non-empty. -/
theorem classify_heading_ne (raws : List RawElem) :
    ∀ t l, CElem.heading t l ∈ classify raws → t ≠ "" := by
  induction raws with
  | nil => intro t l h; simp [classify] at h
  | cons e rest ih =>
    intro t l h
    simp only [classify] at h
    by_cases hlen : (pyStrip e.text).length < 3
    · rw [if_pos hlen] at h; exact ih t l h
    · rw [if_neg hlen] at h
      cases htag : e.tag with
      | h lvl =>
        rw [htag] at h
        cases h with
        | head =>
          intro he
          rw [he] at hlen
          exact hlen (by decide)
        | tail _ hmem => exact ih t l hmem
      | p =>
        rw [htag] at h
        by_cases h20 : (pyStrip e.text).length > 20
        · rw [if_pos h20] at h
          cases h with
          | tail _ hmem => exact ih t l hmem
        · rw [if_neg h20] at h; exact ih t l h

/-- On any element list whose heading texts are all non-empty, the
imperative two-pass grouping computes exactly the run characterization. -/
theorem group2_eq_sectionsOfRuns (els : List CElem)
    (hne : ∀ t l, CElem.heading t l ∈ els → t ≠ "") :
    group2 els initCur = sectionsOfRuns els := by
  induction els with
  | nil => rfl
  | cons e rest ih =>
    cases e with
    | heading t l =>
      have ht : t ≠ "" := hne t l (List.mem_cons_self _ _)
      have hrest : ∀ t' l', CElem.heading t' l' ∈ rest → t' ≠ "" :=
        fun t' l' hm => hne t' l' (List.mem_cons_of_mem _ hm)
      simp only [group2, sealList_initCur, List.nil_append]
      rw [group2_seal_shift, ih hrest]
      simp only [sectionsOfRuns, sealList]
      by_cases hp : takeParas rest = []
      · simp [hp]
      · simp [hp, ht]
    | paragraph t =>
      have hrest : ∀ t' l', CElem.heading t' l' ∈ rest → t' ≠ "" :=
        fun t' l' hm => hne t' l' (List.mem_cons_of_mem _ hm)
      simp only [group2, sectionsOfRuns]
      exact ih hrest

/-- Claim C1: for every classified element sequence, each Heading that
is immediately followed by one or more Paragraph elements before the
next Heading (or end of input) yields exactly one realized Section in
the Grouper's output, whose title and level are that heading's and whose
paragraph list contains exactly those paragraphs in their original input
order.  Stated as: the grouping of a classified stream equals the
per-run characterization `sectionsOfRuns`. -/
theorem grouper_realizes_one_section_per_run (raws : List RawElem) :
    group2 (classify raws) initCur = sectionsOfRuns (classify raws) :=
  group2_eq_sectionsOfRuns (classify raws) (classify_heading_ne raws)

/-- A section coming out of a seal has non-empty content. -/
theorem sealList_content_ne {cur : CurSection} {s : Section}
    (hs : s ∈ sealList cur) : s.content ≠ [] := by
  obtain ⟨title, lvl, content⟩ := cur
  cases title with
  | none => simp [sealList] at hs
  | some t =>
    simp only [sealList] at hs
    by_cases hc : t ≠ "" ∧ content ≠ []
    · rw [if_pos hc] at hs
      rcases List.mem_singleton.mp hs with rfl
      exact hc.2
    · rw [if_neg hc] at hs; simp at hs

/-- Sections produced by the walk from any current section all have
non-empty content. -/
theorem group2_content_ne (els : List CElem) :
    ∀ cur s, s ∈ group2 els cur → s.content ≠ [] := by
  induction els with
  | nil =>
    intro cur s hs
    simp only [group2] at hs
    exact sealList_content_ne hs
  | cons e rest ih =>
    intro cur s hs
    cases e with
    | heading t l =>
      simp only [group2] at hs
      rcases List.mem_append.mp hs with h1 | h2
      · exact sealList_content_ne h1
      · exact ih _ s h2
    | paragraph t =>
      simp only [group2] at hs
      exact ih cur s hs

/-- Claim C2: every Section appearing in `structured_content` has at
least one paragraph: a Heading with zero qualifying paragraphs before
the next Heading or end of stream never produces an entry. -/
theorem structured_content_sections_nonempty (raws : List RawElem) (s : Section)
    (hs : s ∈ group2 (classify raws) initCur) : s.content ≠ [] :=
  group2_content_ne (classify raws) initCur s hs

/-- Witness for C2 at a concrete input: a heading followed by one long
paragraph realizes a section with non-empty content. -/
theorem structured_content_sections_nonempty_witness :
    (⟨"History", 2, ["A paragraph longer than twenty chars."]⟩ : Section) ∈
      group2 (classify [⟨Tag.h 2, "History"⟩,
        ⟨Tag.p, "A paragraph longer than twenty chars."⟩]) initCur ∧
    (⟨"History", 2, ["A paragraph longer than twenty chars."]⟩ : Section).content ≠ [] :=
  ⟨by decide, structured_content_sections_nonempty
    [⟨Tag.h 2, "History"⟩, ⟨Tag.p, "A paragraph longer than twenty chars."⟩]
    ⟨"History", 2, ["A paragraph longer than twenty chars."]⟩ (by decide)⟩

/-- The line of 70 `=` characters (`'='*70` in the source). -/
def eq70 : String := ⟨List.replicate 70 '='⟩

/-- The delimiter block written around a title when the grouper seals a
section, as the concatenation of the three parts appended to
`all_text_parts` (main.py lines 313-315 and 336-338). -/
def sealBlock (title : String) : String :=
  ("\n\n" ++ eq70 ++ "\n") ++ (title ++ "\n") ++ (eq70 ++ "\n\n")

/-- The block emitted by the Formatter in place of a line matching a
section title (main.py line 49). -/
def formatterBlock (title : String) : String :=
  "\n\n" ++ eq70 ++ "\n" ++ title ++ "\n" ++ eq70 ++ "\n\n"

/-- Claim C6: for every title string, the section boundary emitted when
the Grouper seals a section and the block emitted when the Formatter
replaces a matched line are the same literal delimiter block: a blank
line, a line of 70 `=` characters, the title text, a line of 70 `=`
characters, and a blank line. -/
theorem seal_block_eq_formatter_block (title : String) :
    sealBlock title = formatterBlock title := by
  apply String.ext
  simp [sealBlock, formatterBlock, String.data_append, List.append_assoc]

/-- The flat `content_text` accumulated during the grouping pass: per
sealed section, the delimiter parts around its title followed by its
paragraphs joined by blank lines, everything concatenated in seal order
by `"".join(all_text_parts)` (main.py lines 312-316, 336-342). -/
def structuredText : List Section → String
  | [] => ""
  | s :: rest => sealBlock s.title ++ pyJoin "\n\n" s.content ++ structuredText rest

theorem eq70_length : eq70.length = 70 := by decide

theorem sealBlock_length (t : String) : (sealBlock t).length = 146 + t.length := by
  have h1 : ("\n\n" ++ eq70 ++ "\n").length = 73 := by decide
  have h2 : (eq70 ++ "\n\n").length = 72 := by decide
  have h3 : ("\n" : String).length = 1 := by decide
  simp only [sealBlock, String.length_append, h1, h2, h3]
  omega

/-- The structured flat text is either empty (no sealed section) or at
least 146 characters long: each sealed section contributes at least the
two 70-character delimiter lines and four newline characters. -/
theorem structuredText_empty_or_long (secs : List Section) :
    structuredText secs = "" ∨ 100 ≤ (structuredText secs).length := by
  cases secs with
  | nil => left; rfl
  | cons s rest =>
    right
    simp only [structuredText, String.length_append, sealBlock_length]
    omega

/-- Tier-2 paragraph collection (main.py lines 351-357): the stripped
texts of all `p` elements of the container that are non-empty and longer
than 20 characters. -/
def paragraphTexts (raws : List RawElem) : List String :=
  ((raws.filter (fun e => e.tag = Tag.p)).map (fun e => pyStrip e.text)).filter
    (fun t => decide (t ≠ "" ∧ 20 < t.length))

/-- The grouper's flat text (the value of `content_text` at main.py
line 342, before any fallback fires). -/
def tier1Content (raws : List RawElem) : String :=
  structuredText (group2 (classify raws) initCur)

/-- The value of `content_text` after the tier-2 fallback (main.py
lines 346-361): when the structured text is empty or shorter than 100
characters and the collected paragraph list is non-empty, `content_text`
is replaced by the paragraphs joined with blank lines; otherwise it is
left unchanged. -/
def tier2Content (raws : List RawElem) : String :=
  if (tier1Content raws).length < 100 then
    (if paragraphTexts raws = [] then tier1Content raws
     else pyJoin "\n\n" (paragraphTexts raws))
  else tier1Content raws

/-- The value of `content_text` after the tier-3 fallback (main.py
lines 365-374): when the text is still empty or shorter than 50
characters, the raw container text is used. -/
def fallbackContent (raws : List RawElem) (containerText : String) : String :=
  if (tier2Content raws).length < 50 then containerText else tier2Content raws

/-- Claim C5: whenever the structured tier's flat text is insufficient
(empty or shorter than 100 characters) and the paragraph-list tier's own
output is insufficient (empty or shorter than 50 characters), the raw
container text becomes `content_text`. -/
theorem fallback_reaches_container_text (raws : List RawElem) (containerText : String)
    (h1 : (tier1Content raws).length < 100)
    (h2 : (pyJoin "\n\n" (paragraphTexts raws)).length < 50) :
    fallbackContent raws containerText = containerText := by
  rcases structuredText_empty_or_long (group2 (classify raws) initCur) with he | hl
  · have he' : tier1Content raws = "" := he
    have h100 : ("" : String).length < 100 := by decide
    have h50 : ("" : String).length < 50 := by decide
    unfold fallbackContent tier2Content
    rw [he', if_pos h100]
    cases hp : paragraphTexts raws with
    | nil => rw [if_pos rfl, if_pos h50]
    | cons t ts =>
      rw [hp] at h2
      rw [if_neg (show ¬ (t :: ts = []) by simp), if_pos h2]
  · have hl' : 100 ≤ (tier1Content raws).length := hl
    omega

/-- Witness for C5: a single short paragraph element produces no
structure and no tier-2 text, so the container text is used. -/
theorem fallback_reaches_container_text_witness :
    (tier1Content [⟨Tag.p, "short"⟩]).length < 100 ∧
    (pyJoin "\n\n" (paragraphTexts [⟨Tag.p, "short"⟩])).length < 50 ∧
    fallbackContent [⟨Tag.p, "short"⟩] "RAW CONTAINER TEXT" = "RAW CONTAINER TEXT" :=
  ⟨by decide, by decide,
    fallback_reaches_container_text [⟨Tag.p, "short"⟩] "RAW CONTAINER TEXT"
      (by decide) (by decide)⟩

/-- The inner title loop of the Formatter (main.py lines 46-51): the
first title in list order that the stripped line equals or starts with,
if any. -/
def findTitleMatch : List String → String → Option String
  | [], _ => none
  | t :: rest, ls =>
    if ls = t ∨ pyStartsWith ls t = true then some t else findTitleMatch rest ls

/-- The line loop of the Formatter (main.py lines 41-55): a matched line
is replaced by the delimiter block of the matching title; an unmatched
line is kept as-is when non-empty after stripping and dropped otherwise. -/
def formatParts (titles : List String) : List String → List String
  | [] => []
  | line :: rest =>
    match findTitleMatch titles (pyStrip line) with
    | some t => formatterBlock t :: formatParts titles rest
    | none =>
      if pyStrip line ≠ "" then line :: formatParts titles rest
      else formatParts titles rest

/-- One step of newline-run flushing: a run of 4 or more newlines is
replaced by exactly two, a shorter run is kept. -/
def emitRun (n : Nat) : List Char :=
  if 4 ≤ n then ['\n', '\n'] else List.replicate n '\n'

/-- Scan the character list counting the current newline run, flushing
it via `emitRun` at each non-newline character and at the end. -/
def collapseAux : Nat → List Char → List Char
  | n, [] => emitRun n
  | n, c :: cs =>
    if c = '\n' then collapseAux (n + 1) cs else emitRun n ++ c :: collapseAux 0 cs

/-- Model of `re.sub` with pattern `\n{4,}` and replacement of two
newlines (main.py line 60): every maximal run of 4 or more consecutive
newlines is collapsed to exactly 2. -/
def collapseNewlines (s : String) : String := ⟨collapseAux 0 s.data⟩

/-- The function `format_content_with_sections` (main.py lines 22-63):
return the content unchanged when the title list or the content is empty; otherwise
process each newline-separated line, join the emitted pieces with
newlines, and collapse excessive newline runs. -/
def format_content_with_sections (content : String) (titles : List String) : String :=
  if titles = [] ∨ content = "" then content
  else collapseNewlines (pyJoin "\n" (formatParts titles (pySplitNl content)))

/-- Per-line description of the Formatter: replace a line whose stripped
form equals or starts with some candidate title (first matching title in
original order wins) by that title's delimiter block; keep an unmatched
line iff it is non-empty after stripping. -/
def formatLineSpec (titles : List String) (line : String) : Option String :=
  match titles.find? (fun t => decide (pyStrip line = t ∨ pyStartsWith (pyStrip line) t = true)) with
  | some t => some (formatterBlock t)
  | none => if pyStrip line = "" then none else some line

/-- The imperative inner loop computes `List.find?` of the match
predicate over the title list. -/
theorem findTitleMatch_eq_find (titles : List String) (ls : String) :
    findTitleMatch titles ls =
      titles.find? (fun t => decide (ls = t ∨ pyStartsWith ls t = true)) := by
  induction titles with
  | nil => rfl
  | cons t rest ih =>
    simp only [findTitleMatch, List.find?]
    by_cases hc : ls = t ∨ pyStartsWith ls t = true
    · simp [hc]
    · simp [hc, ih]

/-- The Formatter's line loop is the per-line description mapped and
filtered over the lines. -/
theorem formatParts_eq_filterMap (titles : List String) (lines : List String) :
    formatParts titles lines = lines.filterMap (formatLineSpec titles) := by
  induction lines with
  | nil => rfl
  | cons line rest ih =>
    simp only [formatParts, List.filterMap_cons, formatLineSpec, ← findTitleMatch_eq_find]
    cases hm : findTitleMatch titles (pyStrip line) with
    | some t => simp [hm, ih]
    | none =>
      simp only [hm]
      by_cases hs : pyStrip line = ""
      · simp [hs, ih]
      · simp [hs, ih]

/-- Claim C7: for every flat text and non-empty `section_titles` list,
the Formatter processes each line as follows: a line whose stripped form
equals or starts with some candidate title — the first matching title in
the titles' original encounter order winning — is replaced by a
delimiter block containing that title; otherwise the line is emitted
unchanged when non-empty after stripping and dropped when empty. -/
theorem formatter_processes_lines (content : String) (titles : List String)
    (ht : titles ≠ []) (hc : content ≠ "") :
    format_content_with_sections content titles =
      collapseNewlines (pyJoin "\n" ((pySplitNl content).filterMap (formatLineSpec titles))) := by
  unfold format_content_with_sections
  rw [if_neg (by simp [ht, hc]), formatParts_eq_filterMap]

/-- Witness for C7: a title line is replaced by the delimiter block and
an unrelated line passes through. -/
theorem formatter_processes_lines_witness :
    ("Overview\nBody text of the article." : String) ≠ "" ∧
    (["Overview"] : List String) ≠ [] ∧
    format_content_with_sections "Overview\nBody text of the article." ["Overview"] =
      collapseNewlines (pyJoin "\n" ((pySplitNl "Overview\nBody text of the article.").filterMap
        (formatLineSpec ["Overview"]))) :=
  ⟨by decide, by decide,
    formatter_processes_lines "Overview\nBody text of the article." ["Overview"]
      (by decide) (by decide)⟩

/-- Newline-run detector: scans with the length of the current newline
run and reports a run of four or more. -/
def hasRun4Aux : Nat → List Char → Bool
  | n, [] => decide (4 ≤ n)
  | n, c :: cs =>
    if 4 ≤ n then true
    else if c = '\n' then hasRun4Aux (n + 1) cs else hasRun4Aux 0 cs

/-- Whether a string contains 4 or more consecutive newline characters. -/
def hasRun4 (s : String) : Bool := hasRun4Aux 0 s.data

theorem emitRun_eq_replicate (n : Nat) :
    emitRun n = List.replicate (if 4 ≤ n then 2 else n) '\n' := by
  unfold emitRun
  split
  · rfl
  · rfl

theorem hasRun4Aux_cons (n : Nat) (c : Char) (cs : List Char) :
    hasRun4Aux n (c :: cs) =
      if 4 ≤ n then true
      else if c = '\n' then hasRun4Aux (n + 1) cs else hasRun4Aux 0 cs := rfl

theorem hasRun4Aux_nil (n : Nat) : hasRun4Aux n [] = decide (4 ≤ n) := rfl

theorem hasRun4Aux_replicate (k : Nat) :
    ∀ m (rest : List Char), m + k ≤ 3 →
      hasRun4Aux m (List.replicate k '\n' ++ rest) = hasRun4Aux (m + k) rest := by
  induction k with
  | zero => intro m rest _; simp
  | succ k ih =>
    intro m rest hmk
    rw [List.replicate_succ, List.cons_append, hasRun4Aux_cons]
    rw [if_neg (by omega), if_pos rfl, ih (m + 1) rest (by omega)]
    congr 1
    omega

theorem hasRun4Aux_cons_of_ne (m : Nat) (c : Char) (rest : List Char)
    (hm : m ≤ 3) (hc : c ≠ '\n') :
    hasRun4Aux m (c :: rest) = hasRun4Aux 0 rest := by
  rw [hasRun4Aux_cons, if_neg (by omega), if_neg hc]

/-- The collapsed character stream never contains four consecutive
newlines. -/
theorem collapseAux_no_run4 (cs : List Char) :
    ∀ n, hasRun4Aux 0 (collapseAux n cs) = false := by
  induction cs with
  | nil =>
    intro n
    show hasRun4Aux 0 (emitRun n) = false
    rw [emitRun_eq_replicate]
    by_cases h4 : 4 ≤ n
    · rw [if_pos h4]; decide
    · rw [if_neg h4, ← List.append_nil (List.replicate n '\n'),
        hasRun4Aux_replicate n 0 [] (by omega), hasRun4Aux_nil]
      exact decide_eq_false (by omega)
  | cons c cs ih =>
    intro n
    show hasRun4Aux 0
      (if c = '\n' then collapseAux (n + 1) cs else emitRun n ++ c :: collapseAux 0 cs) = false
    by_cases hc : c = '\n'
    · rw [if_pos hc]; exact ih (n + 1)
    · rw [if_neg hc, emitRun_eq_replicate]
      by_cases h4 : 4 ≤ n
      · rw [if_pos h4, hasRun4Aux_replicate 2 0 _ (by omega), Nat.zero_add,
          hasRun4Aux_cons_of_ne 2 c _ (by omega) hc]
        exact ih 0
      · rw [if_neg h4, hasRun4Aux_replicate n 0 _ (by omega), Nat.zero_add,
          hasRun4Aux_cons_of_ne n c _ (by omega) hc]
        exact ih 0

/-- Claim C8: for every input text and non-empty title list, the string
returned by the Formatter never contains a run of 4 or more consecutive
newline characters: every such run of the concatenated output is
collapsed to exactly 2 newlines. -/
theorem formatter_no_quad_newlines (content : String) (titles : List String)
    (ht : titles ≠ []) :
    hasRun4 (format_content_with_sections content titles) = false := by
  unfold format_content_with_sections
  by_cases hg : titles = [] ∨ content = ""
  · rw [if_pos hg]
    rcases hg with h | h
    · exact absurd h ht
    · rw [h]; decide
  · rw [if_neg hg]
    exact collapseAux_no_run4 _ 0

/-- Witness for C8: formatting a text with a 6-newline run yields output
with no 4-newline run. -/
theorem formatter_no_quad_newlines_witness :
    (["Topic"] : List String) ≠ [] ∧
    hasRun4 (format_content_with_sections "Topic\n\n\n\n\n\nSome body line." ["Topic"]) = false :=
  ⟨by decide,
    formatter_no_quad_newlines "Topic\n\n\n\n\n\nSome body line." ["Topic"] (by decide)⟩

/-- Static link filter (main.py line 391): the href is truthy (not the
empty string) and does not contain the site's own domain token. -/
def refOk (href : String) : Bool :=
  !(href == "") && !(pyContains href "grokipedia.com")

/-- Reference record (main.py lines 393-396). -/
structure Reference where
  number : Nat
  url : String
deriving DecidableEq

/-- Reference collection loop (main.py lines 388-401): walk the hrefs in
document order carrying the `seen_urls` set (modelled as a list) and the
accumulated `references` list; a qualifying unseen href is appended with
number `len(references) + 1` and the loop breaks as soon as the list has
reached 100 entries. -/
def collectRefsAux : List String → List String → List Reference → List Reference
  | [], _, refs => refs
  | href :: rest, seen, refs =>
    if refOk href = true ∧ href ∉ seen then
      (if 100 ≤ refs.length + 1 then refs ++ [⟨refs.length + 1, href⟩]
       else collectRefsAux rest (href :: seen) (refs ++ [⟨refs.length + 1, href⟩]))
    else collectRefsAux rest seen refs

/-- The references of one extraction run (main.py lines 383-401),
starting from an empty seen-set and an empty list. -/
def collectRefs (hrefs : List String) : List Reference :=
  collectRefsAux hrefs [] []

/-- First-seen deduplication: the elements of the list that are not in
the seen-set, in order of first occurrence, each kept once. -/
def firstSeen : List String → List String → List String
  | [], _ => []
  | x :: rest, seen =>
    if x ∈ seen then firstSeen rest seen else x :: firstSeen rest (x :: seen)

theorem firstSeen_nodup_and_fresh (l : List String) :
    ∀ seen : List String, (firstSeen l seen).Nodup ∧ ∀ x ∈ firstSeen l seen, x ∉ seen := by
  induction l with
  | nil => intro seen; simp [firstSeen]
  | cons x rest ih =>
    intro seen
    by_cases hx : x ∈ seen
    · rw [show firstSeen (x :: rest) seen = firstSeen rest seen from by
        simp [firstSeen, hx]]
      exact ih seen
    · rw [show firstSeen (x :: rest) seen = x :: firstSeen rest (x :: seen) from by
        simp [firstSeen, hx]]
      refine ⟨List.nodup_cons.mpr ⟨?_, (ih (x :: seen)).1⟩, ?_⟩
      · intro hmem
        exact (ih (x :: seen)).2 x hmem (List.mem_cons_self x seen)
      · intro y hy
        rcases List.mem_cons.mp hy with rfl | hy'
        · exact hx
        · intro hyseen
          exact (ih (x :: seen)).2 y hy' (List.mem_cons_of_mem x hyseen)

/-- The urls collected by the loop continue the accumulator with the
first-seen distinct qualifying urls, truncated at the 100-entry cap. -/
theorem collectRefsAux_urls (hrefs : List String) :
    ∀ (seen : List String) (refs : List Reference), refs.length ≤ 99 →
      (collectRefsAux hrefs seen refs).map (fun r => r.url) =
        refs.map (fun r => r.url) ++
          (firstSeen (hrefs.filter refOk) seen).take (100 - refs.length) := by
  induction hrefs with
  | nil => intro seen refs _; simp [collectRefsAux, firstSeen]
  | cons href rest ih =>
    intro seen refs hlen
    by_cases hok : refOk href = true
    · have hfil : (href :: rest).filter refOk = href :: rest.filter refOk :=
        List.filter_cons_of_pos hok
      by_cases hseen : href ∈ seen
      · have hcond : ¬ (refOk href = true ∧ href ∉ seen) := fun h => h.2 hseen
        rw [show collectRefsAux (href :: rest) seen refs = collectRefsAux rest seen refs from by
          simp only [collectRefsAux]; rw [if_neg hcond]]
        rw [hfil, show firstSeen (href :: rest.filter refOk) seen
            = firstSeen (rest.filter refOk) seen from by simp [firstSeen, hseen]]
        exact ih seen refs hlen
      · have hcond : refOk href = true ∧ href ∉ seen := ⟨hok, hseen⟩
        have hfs : firstSeen (href :: rest.filter refOk) seen
            = href :: firstSeen (rest.filter refOk) (href :: seen) := by
          simp [firstSeen, hseen]
        have htake : 100 - refs.length = (100 - (refs.length + 1)) + 1 := by omega
        by_cases hcap : 100 ≤ refs.length + 1
        · have h99 : refs.length = 99 := by omega
          rw [show collectRefsAux (href :: rest) seen refs
              = refs ++ [⟨refs.length + 1, href⟩] from by
            simp only [collectRefsAux]; rw [if_pos hcond, if_pos hcap]]
          rw [hfil, hfs, htake, List.take_succ_cons, List.map_append]
          have : 100 - (refs.length + 1) = 0 := by omega
          rw [this, List.take_zero]
          simp
        · rw [show collectRefsAux (href :: rest) seen refs
              = collectRefsAux rest (href :: seen) (refs ++ [⟨refs.length + 1, href⟩]) from by
            simp only [collectRefsAux]; rw [if_pos hcond, if_neg hcap]]
          rw [ih (href :: seen) (refs ++ [(⟨refs.length + 1, href⟩ : Reference)])
            (by simp; omega)]
          rw [hfil, hfs, htake, List.take_succ_cons, List.map_append]
          have hlen' : (refs ++ [(⟨refs.length + 1, href⟩ : Reference)]).length
              = refs.length + 1 := by simp
          rw [hlen']
          simp [List.append_assoc]
    · have hfil : (href :: rest).filter refOk = rest.filter refOk :=
        List.filter_cons_of_neg (by simpa using hok)
      have hcond : ¬ (refOk href = true ∧ href ∉ seen) := fun h => hok h.1
      rw [show collectRefsAux (href :: rest) seen refs = collectRefsAux rest seen refs from by
        simp only [collectRefsAux]; rw [if_neg hcond]]
      rw [hfil]
      exact ih seen refs hlen

/-- The loop preserves the invariant that the numbers are `1, 2, 3, ...`
in order. -/
theorem collectRefsAux_numbers (hrefs : List String) :
    ∀ (seen : List String) (refs : List Reference),
      refs.map (fun r => r.number) = List.range' 1 refs.length →
      (collectRefsAux hrefs seen refs).map (fun r => r.number) =
        List.range' 1 (collectRefsAux hrefs seen refs).length := by
  induction hrefs with
  | nil => intro seen refs h; exact h
  | cons href rest ih =>
    intro seen refs h
    have happ : (refs ++ [(⟨refs.length + 1, href⟩ : Reference)]).map (fun r => r.number)
        = List.range' 1 (refs ++ [(⟨refs.length + 1, href⟩ : Reference)]).length := by
      rw [List.map_append, h]
      have : List.range' 1 (refs.length + 1) = List.range' 1 refs.length ++ [1 + 1 * refs.length] :=
        List.range'_concat 1 refs.length
      simp only [List.length_append, List.length_singleton, this]
      simp
      omega
    by_cases hcond : refOk href = true ∧ href ∉ seen
    · by_cases hcap : 100 ≤ refs.length + 1
      · rw [show collectRefsAux (href :: rest) seen refs
            = refs ++ [⟨refs.length + 1, href⟩] from by
          simp only [collectRefsAux]; rw [if_pos hcond, if_pos hcap]]
        exact happ
      · rw [show collectRefsAux (href :: rest) seen refs
            = collectRefsAux rest (href :: seen) (refs ++ [⟨refs.length + 1, href⟩]) from by
          simp only [collectRefsAux]; rw [if_pos hcond, if_neg hcap]]
        exact ih (href :: seen) _ happ
    · rw [show collectRefsAux (href :: rest) seen refs = collectRefsAux rest seen refs from by
        simp only [collectRefsAux]; rw [if_neg hcond]]
      exact ih seen refs h

/-- The loop never grows the list past 100 entries. -/
theorem collectRefsAux_length_le (hrefs : List String) :
    ∀ (seen : List String) (refs : List Reference), refs.length ≤ 99 →
      (collectRefsAux hrefs seen refs).length ≤ 100 := by
  induction hrefs with
  | nil => intro seen refs h; exact Nat.le_trans h (by omega)
  | cons href rest ih =>
    intro seen refs hlen
    by_cases hcond : refOk href = true ∧ href ∉ seen
    · by_cases hcap : 100 ≤ refs.length + 1
      · rw [show collectRefsAux (href :: rest) seen refs
            = refs ++ [⟨refs.length + 1, href⟩] from by
          simp only [collectRefsAux]; rw [if_pos hcond, if_pos hcap]]
        simp
        omega
      · rw [show collectRefsAux (href :: rest) seen refs
            = collectRefsAux rest (href :: seen) (refs ++ [⟨refs.length + 1, href⟩]) from by
          simp only [collectRefsAux]; rw [if_pos hcond, if_neg hcap]]
        exact ih (href :: seen) _ (by simp; omega)
    · rw [show collectRefsAux (href :: rest) seen refs = collectRefsAux rest seen refs from by
        simp only [collectRefsAux]; rw [if_neg hcond]]
      exact ih seen refs hlen

/-- Claim C4: for every input sequence of outbound URL strings, the
references list contains no duplicate URLs (case-sensitive exact match),
its numbers are exactly `1, 2, 3, ...` assigned in first-seen order of
the distinct qualifying URLs, and it holds at most 100 entries even when
the input holds more distinct URLs or repeated occurrences. -/
theorem references_deduped_numbered_capped (hrefs : List String) :
    ((collectRefs hrefs).map (fun r => r.url)).Nodup ∧
    (collectRefs hrefs).map (fun r => r.number) = List.range' 1 (collectRefs hrefs).length ∧
    (collectRefs hrefs).length ≤ 100 ∧
    (collectRefs hrefs).map (fun r => r.url) =
      (firstSeen (hrefs.filter refOk) []).take 100 := by
  have hurls := collectRefsAux_urls hrefs [] [] (by simp)
  simp only [List.map_nil, List.nil_append, List.length_nil, Nat.sub_zero] at hurls
  refine ⟨?_, ?_, ?_, ?_⟩
  · rw [show (collectRefs hrefs).map (fun r => r.url) = _ from hurls]
    exact ((firstSeen_nodup_and_fresh (hrefs.filter refOk) []).1).sublist
      (List.take_sublist _ _)
  · exact collectRefsAux_numbers hrefs [] [] rfl
  · exact collectRefsAux_length_le hrefs [] [] (by simp)
  · exact hurls

/-- Heading-title collection for post-processing (main.py lines
412-417): stripped heading texts that are non-empty, longer than 2
characters, and different from the page title. -/
def collectSectionTitles (raws : List RawElem) (title : String) : List String :=
  ((raws.filter (fun e => match e.tag with | Tag.h _ => true | Tag.p => false)).map
    (fun e => pyStrip e.text)).filter
    (fun t => decide (t ≠ "" ∧ 2 < t.length ∧ t ≠ title))

/-- The `section_titles` list after the guarded collection step (main.py
lines 408-421): populated only when no structured content was realized,
empty otherwise. -/
def sectionTitlesCollected (raws : List RawElem) (title : String) : List String :=
  if group2 (classify raws) initCur = [] then collectSectionTitles raws title else []

/-- The final `content_text` (main.py lines 423-427): when section
titles were collected and no structured content exists, the fallback
text is reshaped by the Formatter; otherwise it is kept as produced by
the fallback chain. -/
def finalContent (raws : List RawElem) (containerText : String) (title : String) : String :=
  if sectionTitlesCollected raws title ≠ [] ∧ group2 (classify raws) initCur = [] then
    format_content_with_sections (fallbackContent raws containerText)
      (sectionTitlesCollected raws title)
  else fallbackContent raws containerText

/-- The result dictionary of a successful extraction (main.py lines
433-443). -/
structure ExtractionResult where
  title : String
  url : String
  content_text : String
  word_count : Nat
  char_count : Nat
  references_count : Nat
  references : List Reference
  structured_content : Option (List Section)
  section_titles : Option (List String)

/-- The pure core of `_scrape_article_page` (main.py lines 252-443):
group the classified elements, run the fallback chain, collect the
references, optionally collect section titles and reformat the content,
compute the size counts (recomputing them after formatting, main.py
lines 376-378 and 428-430), and assemble the result dictionary. -/
def scrapeArticle (raws : List RawElem) (containerText : String) (hrefs : List String)
    (title url : String) : ExtractionResult :=
  { title := title
    url := url
    content_text := finalContent raws containerText title
    word_count :=
      if sectionTitlesCollected raws title ≠ [] ∧ group2 (classify raws) initCur = [] then
        pyWordCount (finalContent raws containerText title)
      else pyWordCount (fallbackContent raws containerText)
    char_count :=
      if sectionTitlesCollected raws title ≠ [] ∧ group2 (classify raws) initCur = [] then
        (finalContent raws containerText title).length
      else (fallbackContent raws containerText).length
    references_count := (collectRefs hrefs).length
    references := collectRefs hrefs
    structured_content :=
      if group2 (classify raws) initCur = [] then none
      else some (group2 (classify raws) initCur)
    section_titles :=
      if sectionTitlesCollected raws title = [] then none
      else some (sectionTitlesCollected raws title) }

/-- Claim C3: `structured_content` is present in the result iff the
Section Grouper realized at least one Section, and `section_titles` is
present iff the collected heading-title list is non-empty and
`structured_content` is absent. -/
theorem result_presence_invariants (raws : List RawElem) (containerText : String)
    (hrefs : List String) (title url : String) :
    ((scrapeArticle raws containerText hrefs title url).structured_content ≠ none ↔
      group2 (classify raws) initCur ≠ []) ∧
    ((scrapeArticle raws containerText hrefs title url).section_titles ≠ none ↔
      (collectSectionTitles raws title ≠ [] ∧
        (scrapeArticle raws containerText hrefs title url).structured_content = none)) := by
  constructor
  · show (if group2 (classify raws) initCur = [] then none
        else some (group2 (classify raws) initCur)) ≠ none ↔ _
    by_cases hsec : group2 (classify raws) initCur = []
    · simp [hsec]
    · simp [hsec]
  · show (if sectionTitlesCollected raws title = [] then none
        else some (sectionTitlesCollected raws title)) ≠ none ↔
      (collectSectionTitles raws title ≠ [] ∧
        (if group2 (classify raws) initCur = [] then none
         else some (group2 (classify raws) initCur)) = none)
    by_cases hsec : group2 (classify raws) initCur = []
    · by_cases hcol : collectSectionTitles raws title = []
      · simp [sectionTitlesCollected, hsec, hcol]
      · simp [sectionTitlesCollected, hsec, hcol]
    · simp [sectionTitlesCollected, hsec]

/-- Claim C9: the reported `word_count` equals the number of
whitespace-delimited tokens of the final `content_text` and `char_count`
equals its length, computed from the post-Formatter text whenever the
Formatter ran. -/
theorem result_counts_match_final_content (raws : List RawElem) (containerText : String)
    (hrefs : List String) (title url : String) :
    (scrapeArticle raws containerText hrefs title url).word_count =
      pyWordCount (scrapeArticle raws containerText hrefs title url).content_text ∧
    (scrapeArticle raws containerText hrefs title url).char_count =
      (scrapeArticle raws containerText hrefs title url).content_text.length := by
  constructor
  · show (if sectionTitlesCollected raws title ≠ [] ∧ group2 (classify raws) initCur = [] then
        pyWordCount (finalContent raws containerText title)
      else pyWordCount (fallbackContent raws containerText)) =
      pyWordCount (finalContent raws containerText title)
    by_cases h : sectionTitlesCollected raws title ≠ [] ∧ group2 (classify raws) initCur = []
    · rw [if_pos h]
    · rw [if_neg h]
      unfold finalContent
      rw [if_neg h]
  · show (if sectionTitlesCollected raws title ≠ [] ∧ group2 (classify raws) initCur = [] then
        (finalContent raws containerText title).length
      else (fallbackContent raws containerText).length) =
      (finalContent raws containerText title).length
    by_cases h : sectionTitlesCollected raws title ≠ [] ∧ group2 (classify raws) initCur = []
    · rw [if_pos h]
    · rw [if_neg h]
      unfold finalContent
      rw [if_neg h]

/-- Claim C10: every successful extraction result carries a
`references_count` field whose value equals the number of entries of the
references list. -/
theorem result_references_count_matches (raws : List RawElem) (containerText : String)
    (hrefs : List String) (title url : String) :
    (scrapeArticle raws containerText hrefs title url).references_count =
      (scrapeArticle raws containerText hrefs title url).references.length := rfl

end Grokipedia
